import Mathlib

/-!
Verification of the LanguageTool Sublime Text plugin (`LanguageTool.py`,
`LTServer.py`) against its natural-language specification.

The embedding models the host editor state that the plugin manipulates:

* a buffer (`View.text`, a list of characters),
* the named region store (`View.store`, keyed by the region key that
  `add_regions` / `get_regions` / `erase_regions` use),
* the per-view problem list stored under the setting
  `language_tool_problems` (`View.problems`),
* the first selection (`View.sel`; the code always reads `view.sel()[0]`).

Python code that can raise (indexing an empty region list, the assert in
`is_problem_solved`, out-of-range list indexing) is modelled with `Option`:
`none` is an unmodelled exception escaping the command.
-/

/-- Association-list lookup, first match wins (models a key-value store). -/
def lookupKey {κ α : Type} [DecidableEq κ] : List (κ × α) → κ → Option α
  | [], _ => none
  | (k, x) :: rest, key => if k = key then some x else lookupKey rest key

/-- Association-list update: replace the first binding of the key, or append. -/
def setKey {κ α : Type} [DecidableEq κ] : List (κ × α) → κ → α → List (κ × α)
  | [], key, x => [(key, x)]
  | (k, y) :: rest, key, x =>
      if k = key then (key, x) :: rest else (k, y) :: setKey rest key x

theorem lookupKey_setKey_self {κ α : Type} [DecidableEq κ]
    (l : List (κ × α)) (key : κ) (x : α) :
    lookupKey (setKey l key x) key = some x := by
  induction l with
  | nil => simp [setKey, lookupKey]
  | cons hd tl ih =>
      obtain ⟨k, y⟩ := hd
      by_cases hk : k = key
      · simp [setKey, hk, lookupKey]
      · simp [setKey, hk, lookupKey, ih]

theorem lookupKey_setKey_ne {κ α : Type} [DecidableEq κ]
    (l : List (κ × α)) (key key' : κ) (x : α) (h : key' ≠ key) :
    lookupKey (setKey l key x) key' = lookupKey l key' := by
  induction l with
  | nil => simp [setKey, lookupKey, Ne.symm h]
  | cons hd tl ih =>
      obtain ⟨k, y⟩ := hd
      by_cases hk : k = key
      · subst hk
        simp [setKey, lookupKey, Ne.symm h]
      · simp [setKey, hk, lookupKey, ih]

/-- A Sublime text region; `a` and `b` are character offsets (`a` may equal
`b` for an empty region). Mirrors `sublime.Region(a, b)`. -/
structure Region where
  a : Nat
  b : Nat
deriving DecidableEq, Repr

/-- Sublime `Region.begin()`: the lower bound of the region. -/
def Region.begin (r : Region) : Nat := min r.a r.b

/-- Sublime `Region.end()`: the upper bound of the region (`end` is a Lean
keyword, hence `stop`). -/
def Region.stop (r : Region) : Nat := max r.a r.b

/-- Sublime `Region.empty()`: true iff the region has zero length. -/
def Region.empty (r : Region) : Bool := r.a == r.b

/-- Sublime `Region.contains(region)`: the argument lies inside `r`. -/
def Region.containsReg (r s : Region) : Bool :=
  decide (r.begin ≤ s.begin) && decide (s.stop ≤ r.stop)

/-- A problem record as built by `parse_match` and then enriched with
`orgContent` / `regionKey` by `add_highlight_region`.  `parse_match` itself
creates only the first seven fields; the two trailing fields default to the
empty snapshot and key until `add_highlight_region` fills them in. -/
structure Problem where
  category : String
  message : String
  replacements : List String
  rule : String
  urls : List String
  offset : Nat
  length : Nat
  orgContent : List Char := []
  regionKey : String := ""
deriving DecidableEq, Repr

/-- One entry of the view's named-region store: the regions last passed to
`add_regions` under a key, together with the scope they were drawn with. -/
structure RegionEntry where
  regions : List Region
  scope : String
deriving DecidableEq, Repr

/-- The slice of Sublime view state the plugin reads and writes. -/
structure View where
  text : List Char
  store : List (String × RegionEntry)
  problems : List Problem
  sel : Region
deriving DecidableEq, Repr

/-- Sublime `view.get_regions(key)`: the stored regions, `[]` for an unknown
key. -/
def View.getRegions (v : View) (key : String) : List Region :=
  match lookupKey v.store key with
  | some e => e.regions
  | none => []

/-- Sublime `view.add_regions(key, regions, scope, icon, style)`: replaces the
entry under `key`. -/
def View.addRegions (v : View) (key : String) (rs : List Region) (scope : String) : View :=
  { v with store := setKey v.store key ⟨rs, scope⟩ }

/-- Sublime `view.substr(region)`: the buffer text between `begin` and
`end` of the region. -/
def View.substr (v : View) (r : Region) : List Char :=
  (v.text.drop r.begin).take (r.stop - r.begin)

theorem getRegions_addRegions_self (v : View) (key : String) (rs : List Region) (sc : String) :
    (v.addRegions key rs sc).getRegions key = rs := by
  unfold View.getRegions View.addRegions
  simp [lookupKey_setKey_self]

theorem getRegions_addRegions_ne (v : View) (key key' : String) (rs : List Region)
    (sc : String) (h : key' ≠ key) :
    (v.addRegions key rs sc).getRegions key' = v.getRegions key' := by
  unfold View.getRegions View.addRegions
  simp [lookupKey_setKey_ne _ _ _ _ h]

/-- The body of the solved test once the first region `r` of the problem's
key is at hand: the region is empty, or its current text differs from the
snapshot `orgContent` taken at detection time. -/
def solved_with (v : View) (p : Problem) (r : Region) : Bool :=
  r.empty || (v.substr r != p.orgContent)

/-- `is_problem_solved(view, problem)` from `LanguageTool.py`.  The function
asserts that the problem's region key resolves to at least one region and
then tests the first region; `none` models the assertion failure. -/
def is_problem_solved (v : View) (p : Problem) : Option Bool :=
  match v.getRegions p.regionKey with
  | [] => none
  | r :: _ => some (solved_with v p r)

/-- C1: for a tracked problem whose region key resolves to at least one
region, `is_problem_solved` returns a value, and that value is `True`
exactly when the (first) region is empty or the buffer text currently
inside it differs from the stored snapshot `orgContent`.  The result is a
pure function of the present view state: nothing is cached. -/
theorem is_problem_solved_iff (v : View) (p : Problem) (r : Region) (rest : List Region)
    (h : v.getRegions p.regionKey = r :: rest) :
    (is_problem_solved v p).isSome ∧
    (is_problem_solved v p = some true ↔ (r.a = r.b ∨ v.substr r ≠ p.orgContent)) := by
  unfold is_problem_solved
  rw [h]
  refine ⟨rfl, ?_⟩
  simp [solved_with, Region.empty, Bool.or_eq_true, beq_iff_eq, bne_iff_ne]

def exRegionC1 : Region := ⟨0, 2⟩

def exViewC1 : View :=
  { text := "ab".toList
    store := [("0", ⟨[exRegionC1], "comment"⟩)]
    problems := []
    sel := ⟨0, 0⟩ }

def exProblemC1 : Problem :=
  { category := "CAT", message := "msg", replacements := [], rule := "R"
    urls := [], offset := 0, length := 2
    orgContent := "ab".toList, regionKey := "0" }

/-- Witness for C1 at a concrete view and problem. -/
theorem is_problem_solved_iff_witness :
    (is_problem_solved exViewC1 exProblemC1).isSome ∧
    (is_problem_solved exViewC1 exProblemC1 = some true ↔
      (exRegionC1.a = exRegionC1.b ∨ exViewC1.substr exRegionC1 ≠ exProblemC1.orgContent)) :=
  is_problem_solved_iff exViewC1 exProblemC1 exRegionC1 [] (by decide)

/-! ## Match-to-problem mapping (`parse_match`, `shift_offset`) -/

/-- A category sub-object of a server match (`match["rule"]["category"]`). -/
structure LTCategory where
  name : String
deriving DecidableEq, Repr

/-- A reference-URL sub-object (`match["rule"]["urls"][i]`). -/
structure LTUrl where
  value : String
deriving DecidableEq, Repr

/-- A replacement sub-object (`match["replacements"][i]`). -/
structure LTReplacement where
  value : String
deriving DecidableEq, Repr

/-- The rule sub-object of a server match; `urls` is an optional key,
absent ones read as the empty list via `dict.get("urls", [])`. -/
structure LTRule where
  id : String
  category : LTCategory
  urls : Option (List LTUrl)
deriving DecidableEq, Repr

/-- A match object as returned by the LanguageTool server. -/
structure LTMatch where
  rule : LTRule
  message : String
  replacements : List LTReplacement
  offset : Nat
  length : Nat
deriving DecidableEq, Repr

/-- `parse_match(match)` from `LanguageTool.py`: build the problem record
from the match's fields.  The snapshot and region key are attached later by
`add_highlight_region`, so they stay at their defaults here. -/
def parse_match (m : LTMatch) : Problem :=
  { category := m.rule.category.name
    message := m.message
    replacements := m.replacements.map LTReplacement.value
    rule := m.rule.id
    urls := (m.rule.urls.getD []).map LTUrl.value
    offset := m.offset
    length := m.length }

/-- `shift_offset(problem, shift)` from `LanguageTool.py`. -/
def shift_offset (p : Problem) (shift : Nat) : Problem :=
  { p with offset := p.offset + shift }

/-- C3: mapping a server match through `parse_match` and shifting by the
checked region's start yields offset `m.offset + selectionStart` and length
`m.length`; category, message, replacements (in order), rule id and urls
(in order) are taken unchanged from the match. -/
theorem parse_match_shift_spec (m : LTMatch) (selectionStart : Nat) :
    (shift_offset (parse_match m) selectionStart).offset = m.offset + selectionStart ∧
    (shift_offset (parse_match m) selectionStart).length = m.length ∧
    (shift_offset (parse_match m) selectionStart).category = m.rule.category.name ∧
    (shift_offset (parse_match m) selectionStart).message = m.message ∧
    (shift_offset (parse_match m) selectionStart).replacements
      = m.replacements.map LTReplacement.value ∧
    (shift_offset (parse_match m) selectionStart).rule = m.rule.id ∧
    (shift_offset (parse_match m) selectionStart).urls
      = (m.rule.urls.getD []).map LTUrl.value :=
  ⟨rfl, rfl, rfl, rfl, rfl, rfl, rfl⟩

/-! ## Equal-problem grouping (`get_equal_problems`) -/

/-- The inner `is_equal` predicate of `get_equal_problems`: same category and
same original snapshot content. -/
def is_equal (prob1 prob2 : Problem) : Bool :=
  (prob1.category == prob2.category) && (prob1.orgContent == prob2.orgContent)

/-- `get_equal_problems(problems, x)` from `LanguageTool.py`: the sublist of
problems equal to `x` under `is_equal`. -/
def get_equal_problems (problems : List Problem) (x : Problem) : List Problem :=
  problems.filter (fun problem => is_equal problem x)

theorem mem_get_equal_problems (problems : List Problem) (x q : Problem) :
    q ∈ get_equal_problems problems x ↔
      (q ∈ problems ∧ q.category = x.category ∧ q.orgContent = x.orgContent) := by
  simp [get_equal_problems, List.mem_filter, is_equal, Bool.and_eq_true, beq_iff_eq,
    and_assoc]

/-- C5: `get_equal_problems` returns exactly the entries agreeing with `x`
on category and original snapshot; the relation is reflexive and symmetric,
so a member `x` appears in its own result, and membership is mutual between
members `x` and `y`. -/
theorem get_equal_problems_spec (problems : List Problem) (x y : Problem)
    (hx : x ∈ problems) (hy : y ∈ problems) :
    (∀ q, q ∈ get_equal_problems problems x ↔
        (q ∈ problems ∧ q.category = x.category ∧ q.orgContent = x.orgContent)) ∧
    x ∈ get_equal_problems problems x ∧
    (x ∈ get_equal_problems problems y ↔ y ∈ get_equal_problems problems x) := by
  refine ⟨fun q => mem_get_equal_problems problems x q, ?_, ?_⟩
  · exact (mem_get_equal_problems problems x x).2 ⟨hx, rfl, rfl⟩
  · rw [mem_get_equal_problems, mem_get_equal_problems]
    constructor
    · rintro ⟨-, hc, ho⟩
      exact ⟨hy, hc.symm, ho.symm⟩
    · rintro ⟨-, hc, ho⟩
      exact ⟨hx, hc.symm, ho.symm⟩

def exProblemC5 : Problem :=
  { category := "CAT", message := "msg", replacements := [], rule := "R"
    urls := [], offset := 0, length := 1, orgContent := "a".toList, regionKey := "0" }

/-- Witness for C5 at a concrete one-problem list. -/
theorem get_equal_problems_spec_witness :
    (∀ q, q ∈ get_equal_problems [exProblemC5] exProblemC5 ↔
        (q ∈ [exProblemC5] ∧ q.category = exProblemC5.category ∧
          q.orgContent = exProblemC5.orgContent)) ∧
    exProblemC5 ∈ get_equal_problems [exProblemC5] exProblemC5 ∧
    (exProblemC5 ∈ get_equal_problems [exProblemC5] exProblemC5 ↔
      exProblemC5 ∈ get_equal_problems [exProblemC5] exProblemC5) :=
  get_equal_problems_spec [exProblemC5] exProblemC5 exProblemC5
    (by decide) (by decide)

/-! ## Transport payload (`LTServer.getResponse`) -/

/-- The form payload built by `getResponse` in `LTServer.py`, in insertion
order: `language`, `data` (the submitted text), the `User-Agent` client
identifier, the comma-joined `disabledRules`, and, only when both
credentials are non-empty, `username` and `apiKey`. -/
def getResponse_payload (data language : String) (disabledRules : List String)
    (username apikey : String) : List (String × String) :=
  let base := [("language", language), ("data", data), ("User-Agent", "sublime"),
    ("disabledRules", String.intercalate "," disabledRules)]
  if 0 < username.length ∧ 0 < apikey.length then
    base ++ [("username", username), ("apiKey", apikey)]
  else
    base

theorem string_length_pos (s : String) : 0 < s.length ↔ s ≠ "" := by
  cases s with
  | mk data =>
    cases data with
    | nil => simp [String.length]
    | cons c cs => simp [String.length, String.ext_iff]

/-- C7: the payload contains the `username` and `apiKey` keys iff both the
username and the API key are non-empty; `language`, the text (`data`), the
client identifier and the comma-joined disabled-rule ids are always
present. -/
theorem getResponse_payload_spec (data language : String) (disabledRules : List String)
    (username apikey : String) :
    (("username" ∈ (getResponse_payload data language disabledRules username apikey).map
        Prod.fst) ↔ (username ≠ "" ∧ apikey ≠ "")) ∧
    (("apiKey" ∈ (getResponse_payload data language disabledRules username apikey).map
        Prod.fst) ↔ (username ≠ "" ∧ apikey ≠ "")) ∧
    ("language", language) ∈ getResponse_payload data language disabledRules username apikey ∧
    ("data", data) ∈ getResponse_payload data language disabledRules username apikey ∧
    ("User-Agent", "sublime") ∈ getResponse_payload data language disabledRules username apikey ∧
    ("disabledRules", String.intercalate "," disabledRules)
      ∈ getResponse_payload data language disabledRules username apikey := by
  unfold getResponse_payload
  by_cases hc : 0 < username.length ∧ 0 < apikey.length
  · have hne : username ≠ "" ∧ apikey ≠ "" :=
      ⟨(string_length_pos username).1 hc.1, (string_length_pos apikey).1 hc.2⟩
    simp only [if_pos hc]
    refine ⟨?_, ?_, ?_, ?_, ?_, ?_⟩ <;> simp [hne]
  · have hne : ¬(username ≠ "" ∧ apikey ≠ "") := by
      intro hcontra
      exact hc ⟨(string_length_pos username).2 hcontra.1, (string_length_pos apikey).2 hcontra.2⟩
    simp only [if_neg hc]
    refine ⟨?_, ?_, ?_, ?_, ?_, ?_⟩ <;> simp [hne]

/-! ## Ignored-rule persistence (`load_ignored_rules`, `save_ignored_rules`) -/

/-- An ignored-rule entry as persisted in the user settings file. -/
structure IgnoredRule where
  id : String
  description : String
deriving DecidableEq, Repr

/-- The durable settings registry the plugin writes through
`sublime.load_settings` / `sublime.save_settings`, keyed by settings file
name and setting key. -/
structure SettingsStore where
  entries : List ((String × String) × List IgnoredRule)
deriving DecidableEq, Repr

/-- A registry in which nothing was ever saved. -/
def emptySettingsStore : SettingsStore := ⟨[]⟩

/-- The fixed settings identifier used by both load and save. -/
def ignored_rules_file : String := "LanguageToolUser.sublime-settings"

/-- `settings.get(key, default)` on a named settings file. -/
def settings_get (s : SettingsStore) (file key : String) : Option (List IgnoredRule) :=
  lookupKey s.entries (file, key)

/-- `settings.set(key, value)` on a named settings file (persisted by
`sublime.save_settings`). -/
def settings_set (s : SettingsStore) (file key : String) (val : List IgnoredRule) :
    SettingsStore :=
  ⟨setKey s.entries (file, key) val⟩

/-- `load_ignored_rules()` from `LanguageTool.py`. -/
def load_ignored_rules (s : SettingsStore) : List IgnoredRule :=
  (settings_get s ignored_rules_file "ignored").getD []

/-- `save_ignored_rules(ignored)` from `LanguageTool.py`. -/
def save_ignored_rules (ignored : List IgnoredRule) (s : SettingsStore) : SettingsStore :=
  settings_set s ignored_rules_file "ignored" ignored

/-- C9: loading right after saving returns the saved list unchanged (same
order), and loading from a registry in which nothing was ever saved returns
the empty list. -/
theorem ignored_rules_roundtrip (s : SettingsStore) (ignored : List IgnoredRule) :
    load_ignored_rules (save_ignored_rules ignored s) = ignored ∧
    load_ignored_rules emptySettingsStore = [] := by
  constructor
  · unfold load_ignored_rules save_ignored_rules settings_get settings_set
    simp [lookupKey_setKey_self]
  · rfl

/-! ## Transport failure classification (`LTServer._connect`, `_error`) -/

/-- Outcome of the `urlopen(...).read()` call inside `_connect`, one
constructor per handler of the try/except block: a body read successfully,
an `HTTPError` (status code, reason phrase, body text), a `URLError`, a
`socket.timeout`, or any other `OSError`. -/
inductive ConnectOutcome where
  | success (content : String)
  | httpError (code : Nat) (reason : String) (body : String)
  | urlError
  | timeoutError
  | osError
deriving DecidableEq, Repr

/-- What a `_connect` call produces: the decoded response body handed back
to the caller (`none` on every failure, and on an empty body), and the
message passed to `_error` for asynchronous display, if any. -/
structure ConnectResult where
  response : Option String
  displayedError : Option String
deriving DecidableEq, Repr

/-- `_error(msg)` from `LTServer.py`: the text shown by
`sublime.error_message`. -/
def error_message (msg : String) : String := "LanguageTool Server Error:\n" ++ msg

/-- `_connect(server, payload)` from `LTServer.py`, as a function of the
I/O outcome.  On success with a non-empty body the decoded response is
returned; on an empty body the function returns `None` (the error callback
it schedules would fault on the unbound `msg` and displays nothing); each
exception handler formats its own message and the function returns `None`. -/
def connect (o : ConnectOutcome) : ConnectResult :=
  match o with
  | .success content =>
      ⟨if content = "" then none else some content, none⟩
  | .httpError code reason body =>
      ⟨none, some (error_message (Nat.repr code ++ " " ++ reason ++ "\n\n" ++ body))⟩
  | .urlError => ⟨none, some (error_message "Invalid URL")⟩
  | .timeoutError => ⟨none, some (error_message "Connection timeout")⟩
  | .osError => ⟨none, some (error_message "Unknown error")⟩

/-- Substring containment on strings. -/
def strContains (hay needle : String) : Prop := ∃ s t, hay = s ++ needle ++ t

/-- C8: an HTTP status error yields a null result and a displayed message
containing the numeric status code, the reason phrase and the response
body (so HTTP 500 with body "Internal error" displays both "500" and
"Internal error"); malformed URL, connection timeout and other I/O
failures yield null results and their own three pairwise-distinct
messages. -/
theorem connect_failure_spec :
    (∀ code reason body, ∃ m,
      connect (ConnectOutcome.httpError code reason body) = ⟨none, some m⟩ ∧
      strContains m (Nat.repr code) ∧ strContains m reason ∧ strContains m body) ∧
    connect ConnectOutcome.urlError = ⟨none, some (error_message "Invalid URL")⟩ ∧
    connect ConnectOutcome.timeoutError
      = ⟨none, some (error_message "Connection timeout")⟩ ∧
    connect ConnectOutcome.osError = ⟨none, some (error_message "Unknown error")⟩ ∧
    error_message "Invalid URL" ≠ error_message "Connection timeout" ∧
    error_message "Invalid URL" ≠ error_message "Unknown error" ∧
    error_message "Connection timeout" ≠ error_message "Unknown error" := by
  refine ⟨?_, rfl, rfl, rfl, by decide, by decide, by decide⟩
  intro code reason body
  refine ⟨error_message (Nat.repr code ++ " " ++ reason ++ "\n\n" ++ body), rfl, ?_, ?_, ?_⟩
  · exact ⟨"LanguageTool Server Error:\n", " " ++ reason ++ "\n\n" ++ body, by
      simp [error_message, String.append_assoc]⟩
  · exact ⟨"LanguageTool Server Error:\n" ++ Nat.repr code ++ " ", "\n\n" ++ body, by
      simp [error_message, String.append_assoc]⟩
  · exact ⟨"LanguageTool Server Error:\n" ++ Nat.repr code ++ " " ++ reason ++ "\n\n", "", by
      simp [error_message, String.append_assoc, String.append_empty]⟩

/-! ## Region clearing and the on-modified recomputation -/

/-- `clear_region(view, region_key)` from `LanguageTool.py`: replace the
key's regions by the single empty region at the start of its first stored
region, drawn with the configured highlight scope.  `none` models the
`IndexError` raised when the key resolves to no region. -/
def clear_region (hscope : String) (v : View) (key : String) : Option View :=
  match v.getRegions key with
  | [] => none
  | r :: _ => some (v.addRegions key [⟨r.a, r.a⟩] hscope)

/-- `ignore_problem(p, view, edit)` from `LanguageTool.py`: clear the
problem's region.  The trailing `view.insert(edit, view.size(), "")` is a
no-op edit (it inserts the empty string, added only to make the ignore
undoable), so the buffer text is unchanged. -/
def ignore_problem (hscope : String) (v : View) (p : Problem) : Option View :=
  clear_region hscope v p.regionKey

/-- The `for p2 in equal_problems: ignore_problem(p2, v, edit)` loop,
threading the view through successive clears. -/
def ignore_all (hscope : String) (v : View) : List Problem → Option View
  | [] => some v
  | p :: rest =>
      match ignore_problem hscope v p with
      | none => none
      | some v₂ => ignore_all hscope v₂ rest

theorem clear_region_cases (hscope : String) (v v₂ : View) (key : String)
    (h : clear_region hscope v key = some v₂) :
    ∃ r rest, v.getRegions key = r :: rest ∧
      v₂ = v.addRegions key [⟨r.a, r.a⟩] hscope := by
  unfold clear_region at h
  cases hr : v.getRegions key with
  | nil => rw [hr] at h; exact absurd h (by simp)
  | cons r rest =>
      rw [hr] at h
      exact ⟨r, rest, rfl, by injection h with h2; exact h2.symm⟩

theorem clear_region_preserves_shape (hscope : String) (v v₂ : View) (key k : String)
    (h : clear_region hscope v key = some v₂) (a : Nat)
    (hk : v.getRegions k = [⟨a, a⟩]) :
    ∃ a', v₂.getRegions k = [⟨a', a'⟩] := by
  obtain ⟨r, rest, hr, hv2⟩ := clear_region_cases hscope v v₂ key h
  subst hv2
  by_cases hkey : k = key
  · subst hkey
    rw [hk] at hr
    injection hr with h1 _
    exact ⟨r.a, by rw [getRegions_addRegions_self]⟩
  · exact ⟨a, by rw [getRegions_addRegions_ne _ _ _ _ _ hkey, hk]⟩

theorem clear_region_preserves_nonempty (hscope : String) (v v₂ : View) (key k : String)
    (h : clear_region hscope v key = some v₂)
    (hk : v.getRegions k ≠ []) :
    v₂.getRegions k ≠ [] := by
  obtain ⟨r, rest, hr, hv2⟩ := clear_region_cases hscope v v₂ key h
  subst hv2
  by_cases hkey : k = key
  · subst hkey
    rw [getRegions_addRegions_self]
    simp
  · rw [getRegions_addRegions_ne _ _ _ _ _ hkey]
    exact hk

theorem clear_region_preserves_fields (hscope : String) (v v₂ : View) (key : String)
    (h : clear_region hscope v key = some v₂) :
    v₂.problems = v.problems ∧ v₂.text = v.text ∧ v₂.sel = v.sel := by
  obtain ⟨r, rest, hr, hv2⟩ := clear_region_cases hscope v v₂ key h
  subst hv2
  exact ⟨rfl, rfl, rfl⟩

theorem ignore_all_preserves_shape (hscope : String) :
    ∀ (ps : List Problem) (v v' : View), ignore_all hscope v ps = some v' →
      ∀ (k : String) (a : Nat), v.getRegions k = [⟨a, a⟩] →
        ∃ a', v'.getRegions k = [⟨a', a'⟩]
  | [], v, v', h, k, a, hk => by
      unfold ignore_all at h
      injection h with h
      exact ⟨a, h ▸ hk⟩
  | p :: rest, v, v', h, k, a, hk => by
      unfold ignore_all at h
      cases hc : ignore_problem hscope v p with
      | none => rw [hc] at h; exact absurd h (by simp)
      | some v₂ =>
          rw [hc] at h
          obtain ⟨a₂, hk₂⟩ := clear_region_preserves_shape hscope v v₂ p.regionKey k hc a hk
          exact ignore_all_preserves_shape hscope rest v₂ v' h k a₂ hk₂

theorem ignore_all_clears (hscope : String) :
    ∀ (ps : List Problem) (v v' : View), ignore_all hscope v ps = some v' →
      ∀ q ∈ ps, ∃ a, v'.getRegions q.regionKey = [⟨a, a⟩]
  | [], _, _, _, q, hq => absurd hq (by simp)
  | p :: rest, v, v', h, q, hq => by
      unfold ignore_all at h
      cases hc : ignore_problem hscope v p with
      | none => rw [hc] at h; exact absurd h (by simp)
      | some v₂ =>
          rw [hc] at h
          rcases List.mem_cons.1 hq with hq | hq
          · subst hq
            obtain ⟨r, rest', hr, hv2⟩ := clear_region_cases hscope v v₂ q.regionKey hc
            have hshape : v₂.getRegions q.regionKey = [⟨r.a, r.a⟩] := by
              rw [hv2, getRegions_addRegions_self]
            exact ignore_all_preserves_shape hscope rest v₂ v' h q.regionKey r.a hshape
          · exact ignore_all_clears hscope rest v₂ v' h q hq

theorem ignore_all_total (hscope : String) :
    ∀ (ps : List Problem) (v : View),
      (∀ q ∈ ps, v.getRegions q.regionKey ≠ []) →
      ∃ v', ignore_all hscope v ps = some v'
  | [], v, _ => ⟨v, rfl⟩
  | p :: rest, v, hne => by
      have hp : v.getRegions p.regionKey ≠ [] := hne p (by simp)
      cases hr : v.getRegions p.regionKey with
      | nil => exact absurd hr hp
      | cons r rest' =>
          have hc : ignore_problem hscope v p
              = some (v.addRegions p.regionKey [⟨r.a, r.a⟩] hscope) := by
            unfold ignore_problem clear_region
            rw [hr]
          have hne₂ : ∀ q ∈ rest,
              (v.addRegions p.regionKey [⟨r.a, r.a⟩] hscope).getRegions q.regionKey ≠ [] := by
            intro q hq
            exact clear_region_preserves_nonempty hscope v _ p.regionKey q.regionKey
              (by unfold clear_region; rw [hr]) (hne q (by simp [hq]))
          obtain ⟨v', hv'⟩ := ignore_all_total hscope rest _ hne₂
          exact ⟨v', by unfold ignore_all; rw [hc]; exact hv'⟩

theorem ignore_all_preserves_fields (hscope : String) :
    ∀ (ps : List Problem) (v v' : View), ignore_all hscope v ps = some v' →
      v'.problems = v.problems ∧ v'.text = v.text ∧ v'.sel = v.sel
  | [], v, v', h => by
      unfold ignore_all at h
      injection h with h
      subst h; exact ⟨rfl, rfl, rfl⟩
  | p :: rest, v, v', h => by
      unfold ignore_all at h
      cases hc : ignore_problem hscope v p with
      | none => rw [hc] at h; exact absurd h (by simp)
      | some v₂ =>
          rw [hc] at h
          obtain ⟨h1, h2, h3⟩ := ignore_all_preserves_fields hscope rest v₂ v' h
          obtain ⟨g1, g2, g3⟩ := clear_region_preserves_fields hscope v v₂ p.regionKey hc
          exact ⟨h1.trans g1, h2.trans g2, h3.trans g3⟩

/-- The loop body of `recompute_highlights`: for each stored problem whose
key still resolves to regions, redraw those regions with the highlight
scope if the problem is unsolved and with the empty scope if solved;
problems whose region list is empty are skipped. -/
def recompute_go (hscope : String) : View → List Problem → Option View
  | v, [] => some v
  | v, p :: rest =>
      match v.getRegions p.regionKey with
      | [] => recompute_go hscope v rest
      | r :: rs =>
          match is_problem_solved v p with
          | none => none
          | some solved =>
              recompute_go hscope
                (v.addRegions p.regionKey (r :: rs) (if solved then "" else hscope)) rest

/-- `recompute_highlights(view)` from `LanguageTool.py`, run on every
buffer modification. -/
def recompute_highlights (hscope : String) (v : View) : Option View :=
  recompute_go hscope v v.problems

theorem recompute_go_isSome (hscope : String) :
    ∀ (ps : List Problem) (v : View), (recompute_go hscope v ps).isSome
  | [], _ => rfl
  | p :: rest, v => by
      unfold recompute_go
      cases hr : v.getRegions p.regionKey with
      | nil => exact recompute_go_isSome hscope rest v
      | cons r rs =>
          have hs : is_problem_solved v p = some (solved_with v p r) := by
            unfold is_problem_solved
            rw [hr]
          rw [hs]
          exact recompute_go_isSome hscope rest _

/-- C10: `is_problem_solved` fails its assertion (returns no value) exactly
when the problem's key resolves to no region, and the on-modified
recomputation guards every call by skipping problems with an empty region
list, so `recompute_highlights` always completes without a failure. -/
theorem solved_assert_and_recompute_guard :
    (∀ (v : View) (p : Problem),
      v.getRegions p.regionKey = [] → is_problem_solved v p = none) ∧
    (∀ (hscope : String) (v : View), (recompute_highlights hscope v).isSome) := by
  constructor
  · intro v p h
    unfold is_problem_solved
    rw [h]
  · intro hscope v
    exact recompute_go_isSome hscope v.problems v

def exProblemC10 : Problem :=
  { category := "CAT", message := "msg", replacements := [], rule := "R"
    urls := [], offset := 0, length := 2
    orgContent := "ab".toList, regionKey := "missing" }

/-- Witness for C10: a problem whose key resolves to no region makes
`is_problem_solved` fail, while `recompute_highlights` on a view tracking
that very problem still completes. -/
theorem solved_assert_and_recompute_guard_witness :
    is_problem_solved ⟨"ab".toList, [], [exProblemC10], ⟨0, 0⟩⟩ exProblemC10 = none ∧
    (recompute_highlights "comment" ⟨"ab".toList, [], [exProblemC10], ⟨0, 0⟩⟩).isSome :=
  ⟨solved_assert_and_recompute_guard.1 ⟨"ab".toList, [], [exProblemC10], ⟨0, 0⟩⟩
      exProblemC10 (by decide),
    solved_assert_and_recompute_guard.2 "comment" ⟨"ab".toList, [], [exProblemC10], ⟨0, 0⟩⟩⟩

/-! ## Navigation (`GotoNextLanguageProblemCommand`) -/

/-- The observable outcome of one `goto_next_language_problem` run: the
problem passed to `select_problem` (if any), the status-bar message shown
(if any), and whether the output panel was hidden at the end. -/
structure NavResult where
  selected : Option Problem
  statusMsg : Option String
  panelHidden : Bool
deriving DecidableEq, Repr

/-- The forward scan of `GotoNextLanguageProblemCommand.run`: walk the
problem list in order and stop at the first problem that is not solved and
whose first region starts strictly after the selection start.  `none`
models the `IndexError` on a problem whose key resolves to no region. -/
def scan_forward (v : View) : List Problem → Option (Option Problem)
  | [] => some none
  | p :: rest =>
      match v.getRegions p.regionKey with
      | [] => none
      | r :: _ =>
          if solved_with v p r = false ∧ v.sel.begin < r.a then some (some p)
          else scan_forward v rest

/-- The backward scan (`jump_forward=False`): walk the reversed list and
stop at the first unsolved problem whose first region starts strictly
before the selection start. -/
def scan_backward (v : View) : List Problem → Option (Option Problem)
  | [] => some none
  | p :: rest =>
      match v.getRegions p.regionKey with
      | [] => none
      | r :: _ =>
          if solved_with v p r = false ∧ r.a < v.sel.begin then some (some p)
          else scan_backward v rest

/-- `GotoNextLanguageProblemCommand.run(edit, jump_forward)` from
`LanguageTool.py`.  With an empty problem list the command only hides the
panel; otherwise a hit is selected and the command returns before hiding
the panel, and a miss shows the status message and hides the panel. -/
def goto_next_language_problem (v : View) (jump_forward : Bool) : Option NavResult :=
  if v.problems.isEmpty then some ⟨none, none, true⟩
  else
    match (if jump_forward then scan_forward v v.problems
           else scan_backward v v.problems.reverse) with
    | none => none
    | some (some p) => some ⟨some p, none, false⟩
    | some none => some ⟨none, some "no further language problems to fix", true⟩

/-- A problem the forward scan may stop at: its key resolves, it is not
solved, and its first region starts strictly after the selection start. -/
def nav_candidate (v : View) (p : Problem) : Prop :=
  ∃ r rest, v.getRegions p.regionKey = r :: rest ∧
    solved_with v p r = false ∧ v.sel.begin < r.a

theorem scan_forward_spec (v : View) :
    ∀ l : List Problem, (∀ p ∈ l, v.getRegions p.regionKey ≠ []) →
      (∃ p l1 l2, scan_forward v l = some (some p) ∧ l = l1 ++ p :: l2 ∧
        nav_candidate v p ∧ ∀ q ∈ l1, ¬ nav_candidate v q) ∨
      (scan_forward v l = some none ∧ ∀ q ∈ l, ¬ nav_candidate v q)
  | [], _ => Or.inr ⟨rfl, by simp⟩
  | p :: rest, h => by
      have hp : v.getRegions p.regionKey ≠ [] := h p (by simp)
      cases hr : v.getRegions p.regionKey with
      | nil => exact absurd hr hp
      | cons r rs =>
          by_cases hcond : solved_with v p r = false ∧ v.sel.begin < r.a
          · refine Or.inl ⟨p, [], rest, ?_, by simp, ⟨r, rs, hr, hcond.1, hcond.2⟩, by simp⟩
            unfold scan_forward
            rw [hr]
            show (if solved_with v p r = false ∧ v.sel.begin < r.a then some (some p)
              else scan_forward v rest) = some (some p)
            rw [if_pos hcond]
          · have hnp : ¬ nav_candidate v p := by
              rintro ⟨r', rest', hr', h1, h2⟩
              rw [hr] at hr'
              injection hr' with hrr _
              exact hcond ⟨hrr ▸ h1, hrr ▸ h2⟩
            have hstep : scan_forward v (p :: rest) = scan_forward v rest := by
              have hdef : scan_forward v (p :: rest)
                  = (match v.getRegions p.regionKey with
                     | [] => none
                     | r :: _ =>
                         if solved_with v p r = false ∧ v.sel.begin < r.a then some (some p)
                         else scan_forward v rest) := rfl
              rw [hdef, hr]
              exact if_neg hcond
            rcases scan_forward_spec v rest (fun q hq => h q (by simp [hq])) with
              ⟨p', l1, l2, hscan, hsplit, hcand, hnone⟩ | ⟨hscan, hall⟩
            · refine Or.inl ⟨p', p :: l1, l2, hstep.trans hscan, by simp [hsplit],
                hcand, ?_⟩
              intro q hq
              rcases List.mem_cons.1 hq with hq | hq
              · exact hq ▸ hnp
              · exact hnone q hq
            · refine Or.inr ⟨hstep.trans hscan, ?_⟩
              intro q hq
              rcases List.mem_cons.1 hq with hq | hq
              · exact hq ▸ hnp
              · exact hall q hq

/-- C2 (amended): forward navigation never selects a solved problem; it
selects the first problem in stored list order — not necessarily the
positionally nearest one — that is unsolved and whose region start is
strictly greater than the selection start; when the list is non-empty and
no such problem exists it selects nothing, shows the status message
"no further language problems to fix" and hides the panel; with an empty
list it selects nothing and hides the panel without a message. -/
theorem goto_next_forward_spec (v : View)
    (hres : ∀ p ∈ v.problems, v.getRegions p.regionKey ≠ []) :
    ∃ res, goto_next_language_problem v true = some res ∧
      ((∃ p l1 l2, res.selected = some p ∧ res.statusMsg = none ∧ res.panelHidden = false ∧
          v.problems = l1 ++ p :: l2 ∧ nav_candidate v p ∧
          ∀ q ∈ l1, ¬ nav_candidate v q) ∨
       (res.selected = none ∧ res.panelHidden = true ∧
        (∀ q ∈ v.problems, ¬ nav_candidate v q) ∧
        res.statusMsg = if v.problems.isEmpty then none
          else some "no further language problems to fix")) := by
  by_cases hempty : v.problems.isEmpty
  · refine ⟨⟨none, none, true⟩, ?_, Or.inr ⟨rfl, rfl, ?_, by rw [if_pos hempty]⟩⟩
    · unfold goto_next_language_problem
      rw [if_pos hempty]
    · intro q hq
      rw [List.isEmpty_iff] at hempty
      rw [hempty] at hq
      exact absurd hq (by simp)
  · rcases scan_forward_spec v v.problems hres with
      ⟨p, l1, l2, hscan, hsplit, hcand, hnone⟩ | ⟨hscan, hall⟩
    · refine ⟨⟨some p, none, false⟩, ?_,
        Or.inl ⟨p, l1, l2, rfl, rfl, rfl, hsplit, hcand, hnone⟩⟩
      unfold goto_next_language_problem
      rw [if_neg hempty]
      simp only [if_pos]
      rw [hscan]
    · refine ⟨⟨none, some "no further language problems to fix", true⟩, ?_,
        Or.inr ⟨rfl, rfl, hall, by rw [if_neg hempty]⟩⟩
      unfold goto_next_language_problem
      rw [if_neg hempty]
      simp only [if_pos]
      rw [hscan]

def exProblemC2a : Problem :=
  { category := "CAT", message := "m1", replacements := [], rule := "R"
    urls := [], offset := 10, length := 2
    orgContent := "kl".toList, regionKey := "0" }

def exProblemC2b : Problem :=
  { category := "CAT", message := "m2", replacements := [], rule := "R"
    urls := [], offset := 5, length := 2
    orgContent := "fg".toList, regionKey := "1" }

def exViewC2 : View :=
  { text := "abcdefghijklmnop".toList
    store := [("0", ⟨[⟨10, 12⟩], "comment"⟩), ("1", ⟨[⟨5, 7⟩], "comment"⟩)]
    problems := [exProblemC2a, exProblemC2b]
    sel := ⟨0, 0⟩ }

/-- Counterexample to C2 as stated: with the selection at 0 and two
unsolved problems whose regions start at 10 (first in the list) and 5
(second in the list), forward navigation selects the problem starting at
10, not the nearest one, which starts at 5. -/
theorem goto_next_nearest_counterexample :
    goto_next_language_problem exViewC2 true = some ⟨some exProblemC2a, none, false⟩ ∧
    exProblemC2b ∈ exViewC2.problems ∧
    is_problem_solved exViewC2 exProblemC2b = some false ∧
    exViewC2.getRegions exProblemC2b.regionKey = [⟨5, 7⟩] ∧
    exViewC2.getRegions exProblemC2a.regionKey = [⟨10, 12⟩] ∧
    exViewC2.sel.begin = 0 := by decide

/-- Witness for the amended C2 at a concrete view. -/
theorem goto_next_forward_spec_witness :
    ∃ res, goto_next_language_problem exViewC2 true = some res ∧
      ((∃ p l1 l2, res.selected = some p ∧ res.statusMsg = none ∧ res.panelHidden = false ∧
          exViewC2.problems = l1 ++ p :: l2 ∧ nav_candidate exViewC2 p ∧
          ∀ q ∈ l1, ¬ nav_candidate exViewC2 q) ∨
       (res.selected = none ∧ res.panelHidden = true ∧
        (∀ q ∈ exViewC2.problems, ¬ nav_candidate exViewC2 q) ∧
        res.statusMsg = if exViewC2.problems.isEmpty then none
          else some "no further language problems to fix")) :=
  goto_next_forward_spec exViewC2 (by decide)

/-! ## Ignoring a problem (`MarkLanguageProblemSolvedCommand`, ignore path) -/

/-- The selection-matching loop at the top of
`MarkLanguageProblemSolvedCommand.run`: find the first problem whose first
region equals the selected region; `some none` is the for-else fallthrough
("no language problem selected"), `none` the `IndexError` on a missing
region. -/
def find_selected (v : View) (sel : Region) : List Problem → Option (Option Problem)
  | [] => some none
  | p :: rest =>
      match v.getRegions p.regionKey with
      | [] => none
      | r :: _ => if r = sel then some (some p) else find_selected v sel rest

/-- The ignore path of `MarkLanguageProblemSolvedCommand.run` (taken when
no fix is applied): find the problem matching the selection, collect every
problem equal to it with `get_equal_problems`, and run `ignore_problem` on
each.  The subsequent caret move and `goto_next_language_problem` call do
not touch the region store or the stored problem list. -/
def mark_problem_ignored (hscope : String) (v : View) : Option (View × Option String) :=
  match find_selected v v.sel v.problems with
  | none => none
  | some none => some (v, some "no language problem selected")
  | some (some x) =>
      match ignore_all hscope v (get_equal_problems v.problems x) with
      | none => none
      | some v' => some (v', none)

/-- C4: ignoring the selected problem clears every problem in the session's
list sharing its category and original snapshot text — not only the
selected one — collapsing each of their regions to an empty span. -/
theorem mark_ignored_clears_equal (hscope : String) (v : View) (x : Problem)
    (hx : find_selected v v.sel v.problems = some (some x))
    (hreg : ∀ p ∈ v.problems, v.getRegions p.regionKey ≠ []) :
    ∃ v', mark_problem_ignored hscope v = some (v', none) ∧
      ∀ q ∈ v.problems, q.category = x.category ∧ q.orgContent = x.orgContent →
        ∃ a, v'.getRegions q.regionKey = [⟨a, a⟩] := by
  have hne : ∀ q ∈ get_equal_problems v.problems x, v.getRegions q.regionKey ≠ [] := by
    intro q hq
    exact hreg q ((mem_get_equal_problems v.problems x q).1 hq).1
  obtain ⟨v', hig⟩ := ignore_all_total hscope (get_equal_problems v.problems x) v hne
  refine ⟨v', ?_, ?_⟩
  · unfold mark_problem_ignored
    rw [hx]
    show (match ignore_all hscope v (get_equal_problems v.problems x) with
      | none => none
      | some v' => some (v', none)) = some (v', none)
    rw [hig]
  · intro q hq ⟨hcat, horg⟩
    exact ignore_all_clears hscope (get_equal_problems v.problems x) v v' hig q
      ((mem_get_equal_problems v.problems x q).2 ⟨hq, hcat, horg⟩)

def exProblemC4a : Problem :=
  { category := "CAT", message := "m1", replacements := [], rule := "R"
    urls := [], offset := 0, length := 2
    orgContent := "ab".toList, regionKey := "0" }

def exProblemC4b : Problem :=
  { category := "CAT", message := "m2", replacements := [], rule := "R"
    urls := [], offset := 2, length := 2
    orgContent := "ab".toList, regionKey := "1" }

def exViewC4 : View :=
  { text := "abab".toList
    store := [("0", ⟨[⟨0, 2⟩], "comment"⟩), ("1", ⟨[⟨2, 4⟩], "comment"⟩)]
    problems := [exProblemC4a, exProblemC4b]
    sel := ⟨0, 2⟩ }

/-- Witness for C4: ignoring the first of two problems sharing category and
snapshot clears both regions. -/
theorem mark_ignored_clears_equal_witness :
    ∃ v', mark_problem_ignored "comment" exViewC4 = some (v', none) ∧
      ∀ q ∈ exViewC4.problems,
        q.category = exProblemC4a.category ∧ q.orgContent = exProblemC4a.orgContent →
          ∃ a, v'.getRegions q.regionKey = [⟨a, a⟩] :=
  mark_ignored_clears_equal "comment" exViewC4 exProblemC4a (by decide) (by decide)

/-! ## Rule deactivation / activation (`DeactivateRuleCommand`, `ActivateRuleCommand`) -/

/-- The selection filter of `DeactivateRuleCommand.run`: the problems whose
first region is contained in the current selection.  The comprehension
indexes `get_regions(...)[0]` for every problem, so a single missing region
raises (`none`). -/
def select_probs (v : View) : List Problem → Option (List Problem)
  | [] => some []
  | p :: rest =>
      match v.getRegions p.regionKey with
      | [] => none
      | r :: _ =>
          match select_probs v rest with
          | none => none
          | some tail => some (if v.sel.containsReg r then p :: tail else tail)

/-- Outcome of a `DeactivateRuleCommand.run` invocation: the view (with the
cleared highlight regions), the settings registry (with the saved ignored
list, when one was saved) and the status message shown. -/
structure DeactivateOutcome where
  view : View
  store : SettingsStore
  status : String
deriving DecidableEq, Repr

/-- `DeactivateRuleCommand.run` from `LanguageTool.py`.  With exactly one
selected problem it appends `{id, description}` to the loaded ignored list,
clears (via `ignore_problem`) the region of every tracked problem sharing
the rule id, and saves the appended list.  The source also computes a
filtered copy of the problem list into a local variable, but never writes
it back to the `language_tool_problems` setting, so the stored problem
list is unchanged (`settings().get` returns a copy in the host API).  The
trailing `goto_next_language_problem` run touches neither the region store
nor the stored list. -/
def deactivate_rule (hscope : String) (v : View) (store : SettingsStore) :
    Option DeactivateOutcome :=
  match select_probs v v.problems with
  | none => none
  | some [] => some ⟨v, store, "select a problem to deactivate its rule"⟩
  | some [x] =>
      match ignore_all hscope v (v.problems.filter (fun p => p.rule == x.rule)) with
      | none => none
      | some v' =>
          some ⟨v',
            save_ignored_rules (load_ignored_rules store ++ [⟨x.rule, x.message⟩]) store,
            "deactivated rule " ++ x.rule⟩
  | some (_ :: _ :: _) =>
      some ⟨v, store, "there are multiple selected problems; select only one to deactivate"⟩

/-- Python `list.remove(y)`: drop the first element equal to `y`. -/
def removeFirst : List IgnoredRule → IgnoredRule → List IgnoredRule
  | [], _ => []
  | x :: rest, y => if x = y then rest else x :: removeFirst rest y

/-- `ActivateRuleCommand.activate_callback(i)` from `LanguageTool.py`:
`i = -1` is the cancelled quick panel (nothing changes, nothing shown);
otherwise the entry at index `i` is read and `list.remove` drops the first
entry equal to it, and the shrunk list is saved.  Negative indices other
than `-1` never come from the quick panel and are left unmodelled. -/
def activate_callback (store : SettingsStore) (i : Int) :
    Option (SettingsStore × Option String) :=
  if i = -1 then some (store, none)
  else if i < 0 then none
  else
    match (load_ignored_rules store)[i.toNat]? with
    | none => none
    | some rule =>
        some (save_ignored_rules (removeFirst (load_ignored_rules store) rule) store,
          some ("activated rule " ++ rule.id))

theorem select_probs_regions (v : View) :
    ∀ l : List Problem, ∀ sel, select_probs v l = some sel →
      ∀ p ∈ l, v.getRegions p.regionKey ≠ []
  | [], _, _, p, hp => absurd hp (by simp)
  | p :: rest, sel, h, q, hq => by
      unfold select_probs at h
      cases hr : v.getRegions p.regionKey with
      | nil => rw [hr] at h; exact absurd h (by simp)
      | cons r rs =>
          rw [hr] at h
          cases ht : select_probs v rest with
          | none => rw [ht] at h; exact absurd h (by simp)
          | some tail =>
              rcases List.mem_cons.1 hq with hq | hq
              · subst hq
                rw [hr]
                simp
              · exact select_probs_regions v rest tail ht q hq

theorem removeFirst_eq_eraseIdx :
    ∀ (l : List IgnoredRule) (i : Nat) (rule : IgnoredRule),
      l[i]? = some rule → l.Nodup → removeFirst l rule = l.eraseIdx i
  | [], i, rule, hget, _ => by simp at hget
  | hd :: tl, 0, rule, hget, _ => by
      simp only [List.getElem?_cons_zero, Option.some.injEq] at hget
      subst hget
      simp [removeFirst]
  | hd :: tl, n + 1, rule, hget, hnd => by
      simp only [List.getElem?_cons_succ] at hget
      rw [List.nodup_cons] at hnd
      have hmem : rule ∈ tl := by
        obtain ⟨hlt, hputs⟩ := List.getElem?_eq_some.1 hget
        exact hputs ▸ List.getElem_mem hlt
      have hne : hd ≠ rule := fun hcontra => hnd.1 (hcontra ▸ hmem)
      unfold removeFirst
      rw [if_neg hne]
      rw [removeFirst_eq_eraseIdx tl n rule hget hnd.2]
      simp [List.eraseIdx]

theorem load_after_save (s : SettingsStore) (l : List IgnoredRule) :
    load_ignored_rules (save_ignored_rules l s) = l := by
  unfold load_ignored_rules save_ignored_rules settings_get settings_set
  simp [lookupKey_setKey_self]

/-- C6 (amended): with exactly one selected problem `x`, deactivating its
rule saves the ignored list with `{id, description}` appended and clears
(collapses to an empty span) the highlight region of every tracked problem
sharing the rule id, while the stored problem list itself is left
unchanged — the source filters only a local copy that is never written
back; activating a rule at a chosen index removes the first entry equal to
the one at that index, which on a duplicate-free list is exactly removal
by index. -/
theorem deactivate_activate_spec (hscope : String) (v : View) (store : SettingsStore)
    (x : Problem) (hsel : select_probs v v.problems = some [x]) :
    (∃ out, deactivate_rule hscope v store = some out ∧
      load_ignored_rules out.store = load_ignored_rules store ++ [⟨x.rule, x.message⟩] ∧
      out.view.problems = v.problems ∧
      ∀ q ∈ v.problems, q.rule = x.rule →
        ∃ a, out.view.getRegions q.regionKey = [⟨a, a⟩]) ∧
    (∀ (st : SettingsStore) (i : Nat) (rule : IgnoredRule),
      (load_ignored_rules st)[i]? = some rule →
      (load_ignored_rules st).Nodup →
      ∃ st', activate_callback st (i : Int)
          = some (st', some ("activated rule " ++ rule.id)) ∧
        load_ignored_rules st' = (load_ignored_rules st).eraseIdx i) := by
  constructor
  · have hreg := select_probs_regions v v.problems [x] hsel
    have hne : ∀ q ∈ v.problems.filter (fun p => p.rule == x.rule),
        v.getRegions q.regionKey ≠ [] := fun q hq => hreg q (List.mem_of_mem_filter hq)
    obtain ⟨v', hig⟩ :=
      ignore_all_total hscope (v.problems.filter (fun p => p.rule == x.rule)) v hne
    refine ⟨⟨v',
      save_ignored_rules (load_ignored_rules store ++ [⟨x.rule, x.message⟩]) store,
      "deactivated rule " ++ x.rule⟩, ?_, ?_, ?_, ?_⟩
    · unfold deactivate_rule
      rw [hsel]
      show (match ignore_all hscope v (v.problems.filter (fun p => p.rule == x.rule)) with
        | none => (none : Option DeactivateOutcome)
        | some w =>
            some ⟨w,
              save_ignored_rules (load_ignored_rules store ++ [⟨x.rule, x.message⟩]) store,
              "deactivated rule " ++ x.rule⟩)
        = some ⟨v',
            save_ignored_rules (load_ignored_rules store ++ [⟨x.rule, x.message⟩]) store,
            "deactivated rule " ++ x.rule⟩
      rw [hig]
    · exact load_after_save store (load_ignored_rules store ++ [⟨x.rule, x.message⟩])
    · exact (ignore_all_preserves_fields hscope
        (v.problems.filter (fun p => p.rule == x.rule)) v v' hig).1
    · intro q hq hrule
      exact ignore_all_clears hscope (v.problems.filter (fun p => p.rule == x.rule)) v v'
        hig q (List.mem_filter.2 ⟨hq, by simp [hrule]⟩)
  · intro st i rule hget hnd
    refine ⟨save_ignored_rules (removeFirst (load_ignored_rules st) rule) st, ?_, ?_⟩
    · unfold activate_callback
      rw [if_neg (by omega : ¬((i : Int) = -1)), if_neg (by omega : ¬((i : Int) < 0))]
      have htoNat : (i : Int).toNat = i := rfl
      rw [htoNat, hget]
    · rw [load_after_save]
      exact removeFirst_eq_eraseIdx (load_ignored_rules st) i rule hget hnd

def exProblemC6a : Problem :=
  { category := "CAT", message := "msgA", replacements := [], rule := "R"
    urls := [], offset := 0, length := 3
    orgContent := "abc".toList, regionKey := "0" }

def exProblemC6b : Problem :=
  { category := "CAT", message := "msgB", replacements := [], rule := "R"
    urls := [], offset := 5, length := 3
    orgContent := "fgh".toList, regionKey := "1" }

def exViewC6 : View :=
  { text := "abcdefgh".toList
    store := [("0", ⟨[⟨0, 3⟩], "comment"⟩), ("1", ⟨[⟨5, 8⟩], "comment"⟩)]
    problems := [exProblemC6a, exProblemC6b]
    sel := ⟨0, 3⟩ }

/-- Counterexample to C6 as stated: deactivating rule "R" with the first
problem selected appends the entry to the persisted list, but the stored
problem list after the command still equals the original one, so the other
tracked problem sharing rule id "R" was not removed from it. -/
theorem deactivate_stored_list_counterexample :
    (deactivate_rule "comment" exViewC6 emptySettingsStore).map
        (fun out => (load_ignored_rules out.store, out.view.problems))
      = some ([⟨"R", "msgA"⟩], [exProblemC6a, exProblemC6b]) ∧
    exProblemC6b ∈ exViewC6.problems ∧
    exProblemC6b.rule = "R" ∧ exProblemC6a.rule = "R" := by decide

/-- Witness for the amended C6 at a concrete view, store and problem. -/
theorem deactivate_activate_spec_witness :
    (∃ out, deactivate_rule "comment" exViewC6 emptySettingsStore = some out ∧
      load_ignored_rules out.store
        = load_ignored_rules emptySettingsStore
            ++ [⟨exProblemC6a.rule, exProblemC6a.message⟩] ∧
      out.view.problems = exViewC6.problems ∧
      ∀ q ∈ exViewC6.problems, q.rule = exProblemC6a.rule →
        ∃ a, out.view.getRegions q.regionKey = [⟨a, a⟩]) ∧
    (∀ (st : SettingsStore) (i : Nat) (rule : IgnoredRule),
      (load_ignored_rules st)[i]? = some rule →
      (load_ignored_rules st).Nodup →
      ∃ st', activate_callback st (i : Int)
          = some (st', some ("activated rule " ++ rule.id)) ∧
        load_ignored_rules st' = (load_ignored_rules st).eraseIdx i) :=
  deactivate_activate_spec "comment" exViewC6 emptySettingsStore exProblemC6a (by decide)
